import Mathlib

/-!
Shallow embedding of the todo-list store of this repository
(`src/models/todo-model.js` together with the persistence keys of
`src/services/storage-service.js`), and proofs of the specified
properties of its operations.

JavaScript strings are modelled as lists of characters; `String.prototype.trim`
becomes `jsTrim`.  The persistence gateway is modelled by the two namespaced
keys the store uses (`items` and `nextId`), each either absent or holding the
last value saved under it.  Observer callbacks are modelled by opaque numeric
tokens; a notification pass is recorded by appending the current listener list
to a log, so "some listener was invoked" is visible as growth of that log.
-/

namespace TodoApp

/-- A JavaScript string, as its sequence of characters. -/
abbrev JsStr := List Char

/-- `text.trim()`: remove leading and trailing whitespace. -/
def jsTrim (s : JsStr) : JsStr :=
  ((s.dropWhile Char.isWhitespace).reverse.dropWhile Char.isWhitespace).reverse

/-- One task record, as built by `addTodo` in `todo-model.js`:
`{ id, text, completed, createdAt }`.  The timestamp is abstracted to a
number supplied by the caller (the ambient clock). -/
structure Todo where
  id : Nat
  text : JsStr
  completed : Bool
  createdAt : Nat
deriving DecidableEq

/-- The two persistence-gateway keys the store reads and writes
(`storage.load/save` with keys `items` and `nextId`); `none` models an
absent key, for which `load` returns the supplied default. -/
structure Storage where
  items : Option (List Todo)
  nextId : Option Nat
deriving DecidableEq

/-- The full state of a `TodoModel` instance: its `todos` array, its
`nextId` counter, its `listeners` array (callbacks as opaque tokens), the
storage it holds a reference to, and a ghost log of notification passes
(each entry is the listener list that was invoked). -/
structure TodoModel where
  todos : List Todo
  nextId : Nat
  listeners : List Nat
  storage : Storage
  notifyLog : List (List Nat)
deriving DecidableEq

namespace TodoModel

/-- The `TodoModel` constructor: loads `items` (default `[]`) and `nextId`
(default `1`), and recomputes `nextId` as
`Math.max(maxId + 1, loaded nextId)` where `maxId` is the maximum id of the
loaded todos (`0` when there are none). -/
def construct (st : Storage) : TodoModel :=
  let todos := st.items.getD []
  let maxId := (todos.map (fun t => t.id)).foldl max 0
  { todos := todos
    nextId := max (maxId + 1) (st.nextId.getD 1)
    listeners := []
    storage := st
    notifyLog := [] }

/-- `subscribe(listener)`: pushes the listener onto `this.listeners`.  The
second component is the JavaScript return value: the source has no `return`
statement, so the call evaluates to `undefined`, modelled as `none` (a
returned unsubscribe handle would be `some h`). -/
def subscribe (m : TodoModel) (listener : Nat) : TodoModel × Option Nat :=
  ({ m with listeners := m.listeners ++ [listener] }, none)

/-- `notify()`: invokes every registered listener; recorded by appending the
current listener list to the ghost log. -/
def notify (m : TodoModel) : TodoModel :=
  { m with notifyLog := m.notifyLog ++ [m.listeners] }

/-- `save()`: writes `this.todos` under key `items` and `this.nextId` under
key `nextId`. -/
def save (m : TodoModel) : TodoModel :=
  { m with storage := { items := some m.todos, nextId := some m.nextId } }

/-- `addTodo(text)`: rejects when `!text || text.trim() === ''` or the
trimmed text is longer than 500 characters; otherwise appends
`{ id: this.nextId++, text: trimmedText, completed: false, createdAt: now }`,
saves and notifies. -/
def addTodo (m : TodoModel) (text : JsStr) (now : Nat) : TodoModel :=
  if text = [] ∨ jsTrim text = [] then m
  else if (jsTrim text).length > 500 then m
  else
    (({ m with
        todos := m.todos ++
          [({ id := m.nextId, text := jsTrim text, completed := false,
              createdAt := now } : Todo)],
        nextId := m.nextId + 1 }).save).notify

/-- `toggleComplete(id)`: finds the first index whose record has this id; if
found, replaces that record by a copy with `completed` negated, saves and
notifies; otherwise does nothing.  (The inner `none` branch is unreachable:
`findIdx?` only returns indices inside the list.) -/
def toggleComplete (m : TodoModel) (id : Nat) : TodoModel :=
  match m.todos.findIdx? (fun t => t.id == id) with
  | none => m
  | some index =>
    match m.todos[index]? with
    | none => m
    | some t =>
      (({ m with
          todos := m.todos.set index { t with completed := !t.completed } }).save).notify

/-- `deleteTodo(id)`: filters the todo with this id out (no-op on the array
when none matches), then saves and notifies unconditionally. -/
def deleteTodo (m : TodoModel) (id : Nat) : TodoModel :=
  (({ m with todos := m.todos.filter (fun t => t.id != id) }).save).notify

/-- `updateTodo(id, newText)`: rejects when the id is not found, or
`!newText || newText.trim() === ''`, or the trimmed text is longer than 500
characters; otherwise replaces the found record by a copy whose `text` is
the trimmed value, saves and notifies. -/
def updateTodo (m : TodoModel) (id : Nat) (newText : JsStr) : TodoModel :=
  match m.todos.findIdx? (fun t => t.id == id) with
  | none => m
  | some index =>
    if newText = [] ∨ jsTrim newText = [] then m
    else if (jsTrim newText).length > 500 then m
    else
      match m.todos[index]? with
      | none => m
      | some t =>
        (({ m with
            todos := m.todos.set index { t with text := jsTrim newText } }).save).notify

end TodoModel

/-- A store operation, for reasoning about arbitrary operation sequences. -/
inductive Op where
  | add (text : JsStr) (now : Nat)
  | del (id : Nat)
  | toggle (id : Nat)
  | update (id : Nat) (newText : JsStr)
deriving DecidableEq

namespace TodoModel

/-- Apply one operation to the store. -/
def step (m : TodoModel) : Op → TodoModel
  | Op.add text now => m.addTodo text now
  | Op.del id => m.deleteTodo id
  | Op.toggle id => m.toggleComplete id
  | Op.update id newText => m.updateTodo id newText

/-- Apply a sequence of operations, left to right. -/
def run (m : TodoModel) : List Op → TodoModel
  | [] => m
  | op :: ops => (m.step op).run ops

/-- The ids assigned (handed out by `addTodo`) along an operation sequence,
in order.  An operation assigns the current `nextId` exactly when it
advances the counter. -/
def runAssigned (m : TodoModel) : List Op → List Nat
  | [] => []
  | op :: ops =>
    (if (m.step op).nextId = m.nextId then [] else [m.nextId]) ++ (m.step op).runAssigned ops

end TodoModel

/-! ### List helper lemmas -/

/-- Setting an index to the element already there changes nothing. -/
theorem set_getElem?_self {α : Type} {l : List α} {i : Nat} {a : α}
    (h : l[i]? = some a) : l.set i a = l := by
  induction l generalizing i with
  | nil => simp at h
  | cons x xs ih =>
    cases i with
    | zero => simp_all
    | succ n =>
      simp only [List.getElem?_cons_succ] at h
      simp [List.set_cons_succ, ih h]

/-- The head of `dropWhile p l` fails `p`. -/
theorem dropWhile_head_false {α : Type} {p : α → Bool} {l : List α} {a : α} {as : List α}
    (h : l.dropWhile p = a :: as) : p a = false := by
  induction l with
  | nil => simp at h
  | cons x xs ih =>
    rw [List.dropWhile_cons] at h
    split at h
    · exact ih h
    · cases h
      simp_all

/-- An element failing the predicate is kept by `dropWhile`. -/
theorem mem_dropWhile_of_false {α : Type} {p : α → Bool} {l : List α} {a : α}
    (ha : a ∈ l) (hpa : p a = false) : a ∈ l.dropWhile p := by
  have ha2 : a ∈ l.takeWhile p ++ l.dropWhile p := by
    rw [List.takeWhile_append_dropWhile]; exact ha
  rcases List.mem_append.mp ha2 with h | h
  · have := List.mem_takeWhile_imp h
    rw [hpa] at this
    cases this
  · exact h

/-- The seed is bounded by `foldl max` over any list. -/
theorem init_le_foldl_max (l : List Nat) (b : Nat) : b ≤ l.foldl max b := by
  induction l generalizing b with
  | nil => exact le_refl b
  | cons x xs ih => exact le_trans (le_max_left b x) (ih (max b x))

/-- Every element of a list is bounded by `foldl max` over it. -/
theorem le_foldl_max {l : List Nat} {a : Nat} (ha : a ∈ l) (b : Nat) :
    a ≤ l.foldl max b := by
  induction l generalizing b with
  | nil => cases ha
  | cons x xs ih =>
    rcases List.mem_cons.mp ha with rfl | h
    · exact le_trans (le_max_right b a) (init_le_foldl_max xs (max b a))
    · exact ih h _

/-! ### Facts about `jsTrim` -/

/-- Trimming the empty string yields the empty string. -/
theorem jsTrim_nil : jsTrim [] = [] := rfl

/-- A string with a non-empty trim contains a non-whitespace character that
survives trimming. -/
theorem exists_not_whitespace_mem_jsTrim {s : JsStr} (h : jsTrim s ≠ []) :
    ∃ c ∈ jsTrim s, ¬ c.isWhitespace := by
  unfold jsTrim at h ⊢
  rcases hu : s.dropWhile Char.isWhitespace with _ | ⟨c, cs⟩
  · rw [hu] at h
    simp at h
  · have hc : c.isWhitespace = false := dropWhile_head_false hu
    refine ⟨c, ?_, by simp [hc]⟩
    rw [List.mem_reverse]
    exact mem_dropWhile_of_false (by rw [List.mem_reverse]; exact List.mem_cons_self c cs) hc

/-! ### Field-level facts about the operations -/

namespace TodoModel

theorem save_todos (m : TodoModel) : m.save.todos = m.todos := rfl

theorem save_nextId (m : TodoModel) : m.save.nextId = m.nextId := rfl

theorem notify_todos (m : TodoModel) : m.notify.todos = m.todos := rfl

theorem notify_nextId (m : TodoModel) : m.notify.nextId = m.nextId := rfl

/-- `addTodo` either leaves the whole state unchanged (rejection) or appends
exactly one new record carrying the old counter value and advances the
counter. -/
theorem addTodo_cases (m : TodoModel) (text : JsStr) (now : Nat) :
    m.addTodo text now = m ∨
    ((m.addTodo text now).todos =
        m.todos ++ [{ id := m.nextId, text := jsTrim text, completed := false,
                      createdAt := now }] ∧
      (m.addTodo text now).nextId = m.nextId + 1 ∧
      jsTrim text ≠ [] ∧ (jsTrim text).length ≤ 500) := by
  unfold addTodo
  split
  · exact Or.inl rfl
  · next hcond =>
    split
    · exact Or.inl rfl
    · next hlen =>
      push_neg at hcond
      exact Or.inr ⟨rfl, rfl, hcond.2, by omega⟩

/-- `addTodo` is a complete no-op when the trimmed text is empty or longer
than 500 characters. -/
theorem addTodo_of_invalid (m : TodoModel) (text : JsStr) (now : Nat)
    (h : jsTrim text = [] ∨ 500 < (jsTrim text).length) :
    m.addTodo text now = m := by
  unfold addTodo
  rcases h with h | h
  · rw [if_pos (Or.inr h)]
  · by_cases hc : text = [] ∨ jsTrim text = []
    · rw [if_pos hc]
    · rw [if_neg hc, if_pos (by omega : (jsTrim text).length > 500)]

/-- `addTodo` appends the trimmed record when the input is valid. -/
theorem addTodo_of_valid (m : TodoModel) (text : JsStr) (now : Nat)
    (h1 : jsTrim text ≠ []) (h2 : (jsTrim text).length ≤ 500) :
    (m.addTodo text now).todos =
      m.todos ++ [{ id := m.nextId, text := jsTrim text, completed := false,
                    createdAt := now }] ∧
    (m.addTodo text now).nextId = m.nextId + 1 := by
  have htext : text ≠ [] := by
    intro h0
    rw [h0, jsTrim_nil] at h1
    exact h1 rfl
  unfold addTodo
  rw [if_neg (by simp [htext, h1]), if_neg (by omega)]
  exact ⟨rfl, rfl⟩

theorem deleteTodo_todos (m : TodoModel) (id : Nat) :
    (m.deleteTodo id).todos = m.todos.filter (fun t => t.id != id) := rfl

theorem deleteTodo_nextId (m : TodoModel) (id : Nat) :
    (m.deleteTodo id).nextId = m.nextId := rfl

/-- `toggleComplete` either leaves the array unchanged or replaces one
record in place by a copy with `completed` negated. -/
theorem toggleComplete_todos_cases (m : TodoModel) (id : Nat) :
    (m.toggleComplete id).todos = m.todos ∨
    ∃ i t, m.todos[i]? = some t ∧
      (m.toggleComplete id).todos =
        m.todos.set i { t with completed := !t.completed } := by
  unfold toggleComplete
  split
  · exact Or.inl rfl
  · next i hfind =>
    split
    · exact Or.inl rfl
    · next t ht => exact Or.inr ⟨i, t, ht, rfl⟩

theorem toggleComplete_nextId (m : TodoModel) (id : Nat) :
    (m.toggleComplete id).nextId = m.nextId := by
  unfold toggleComplete
  split
  · rfl
  · split <;> rfl

/-- `updateTodo` either leaves the array unchanged or replaces one record in
place by a copy carrying the validated trimmed text. -/
theorem updateTodo_todos_cases (m : TodoModel) (id : Nat) (newText : JsStr) :
    (m.updateTodo id newText).todos = m.todos ∨
    ∃ i t, m.todos[i]? = some t ∧
      (m.updateTodo id newText).todos =
        m.todos.set i { t with text := jsTrim newText } ∧
      jsTrim newText ≠ [] ∧ (jsTrim newText).length ≤ 500 := by
  unfold updateTodo
  split
  · exact Or.inl rfl
  · next i hfind =>
    split
    · exact Or.inl rfl
    · next hcond =>
      split
      · exact Or.inl rfl
      · next hlen =>
        split
        · exact Or.inl rfl
        · next t ht =>
          push_neg at hcond
          exact Or.inr ⟨i, t, ht, rfl, hcond.2, by omega⟩

theorem updateTodo_nextId (m : TodoModel) (id : Nat) (newText : JsStr) :
    (m.updateTodo id newText).nextId = m.nextId := by
  unfold updateTodo
  split
  · rfl
  · split
    · rfl
    · split
      · rfl
      · split <;> rfl

end TodoModel

/-! ### Invariant predicates -/

/-- A stored text that satisfies the data-model bounds: it contains at least
one non-whitespace character (so it is neither empty nor whitespace-only)
and is at most 500 characters long. -/
def ValidText (s : JsStr) : Prop := (∃ c ∈ s, ¬ c.isWhitespace) ∧ s.length ≤ 500

instance : DecidablePred ValidText := by
  intro s
  unfold ValidText
  infer_instance

/-- An element read by `getElem?` is a member of the list. -/
theorem mem_of_getElem?_some {α : Type} {l : List α} {i : Nat} {a : α}
    (h : l[i]? = some a) : a ∈ l := by
  induction l generalizing i with
  | nil => simp at h
  | cons x xs ih =>
    cases i with
    | zero =>
      simp only [List.getElem?_cons_zero, Option.some.injEq] at h
      exact h ▸ List.mem_cons_self x xs
    | succ n =>
      simp only [List.getElem?_cons_succ] at h
      exact List.mem_cons_of_mem x (ih h)

/-- Every id in the collection is below the counter. -/
def IdBound (m : TodoModel) : Prop := ∀ t ∈ m.todos, t.id < m.nextId

/-- No two records in the collection share an id. -/
def IdsNodup (m : TodoModel) : Prop := (m.todos.map (fun t => t.id)).Nodup

/-- Every record in the collection has a valid text. -/
def TextsValid (m : TodoModel) : Prop := ∀ t ∈ m.todos, ValidText t.text

instance (m : TodoModel) : Decidable (IdBound m) := List.decidableBAll _ _

instance (m : TodoModel) : Decidable (IdsNodup m) := List.nodupDecidable _

instance (m : TodoModel) : Decidable (TextsValid m) := List.decidableBAll _ _

/-- The trimmed text produced by a passed validation guard is a valid text. -/
theorem validText_of_guards {s : JsStr} (h1 : jsTrim s ≠ [])
    (h2 : (jsTrim s).length ≤ 500) : ValidText (jsTrim s) :=
  ⟨exists_not_whitespace_mem_jsTrim h1, h2⟩

/-- Replacing a record by a copy with the same id leaves the id sequence
unchanged. -/
theorem map_id_set {l : List Todo} {i : Nat} {t : Todo} (s : Todo)
    (h : l[i]? = some t) (hid : s.id = t.id) :
    (l.set i s).map (fun x => x.id) = l.map (fun x => x.id) := by
  rw [List.map_set]
  apply set_getElem?_self
  rw [List.getElem?_map, h]
  simp [hid]

namespace TodoModel

/-! ### Per-step preservation lemmas -/

theorem step_nextId_mono (m : TodoModel) (op : Op) : m.nextId ≤ (m.step op).nextId := by
  cases op with
  | add text now =>
    rcases addTodo_cases m text now with h | ⟨_, h2, _⟩
    · simp [step, h]
    · simp only [step, h2]
      omega
  | del id => simp [step, deleteTodo_nextId]
  | toggle id => simp [step, toggleComplete_nextId]
  | update id newText => simp [step, updateTodo_nextId]

theorem step_idBound {m : TodoModel} (op : Op) (h : IdBound m) : IdBound (m.step op) := by
  cases op with
  | add text now =>
    rcases addTodo_cases m text now with he | ⟨h1, h2, _⟩
    · rw [step, he]; exact h
    · intro t ht
      rw [step] at ht ⊢
      rw [h1] at ht
      rw [h2]
      rcases List.mem_append.mp ht with hmem | hmem
      · exact lt_trans (h t hmem) (Nat.lt_succ_self _)
      · rcases List.mem_singleton.mp hmem with rfl
        exact Nat.lt_succ_self _
  | del id =>
    intro t ht
    rw [step, deleteTodo_todos] at ht
    rw [step, deleteTodo_nextId]
    exact h t (List.mem_of_mem_filter ht)
  | toggle id =>
    intro t ht
    rw [step, toggleComplete_nextId]
    rw [step] at ht
    rcases toggleComplete_todos_cases m id with he | ⟨i, u, hu, he⟩
    · rw [he] at ht
      exact h t ht
    · rw [he] at ht
      rcases List.mem_or_eq_of_mem_set ht with hmem | rfl
      · exact h t hmem
      · exact h u (mem_of_getElem?_some hu)
  | update id newText =>
    intro t ht
    rw [step, updateTodo_nextId]
    rw [step] at ht
    rcases updateTodo_todos_cases m id newText with he | ⟨i, u, hu, he, _, _⟩
    · rw [he] at ht
      exact h t ht
    · rw [he] at ht
      rcases List.mem_or_eq_of_mem_set ht with hmem | rfl
      · exact h t hmem
      · exact h u (mem_of_getElem?_some hu)

theorem step_idsNodup {m : TodoModel} (op : Op) (hb : IdBound m) (h : IdsNodup m) :
    IdsNodup (m.step op) := by
  cases op with
  | add text now =>
    rcases addTodo_cases m text now with he | ⟨h1, _, _⟩
    · rw [step, he]; exact h
    · rw [IdsNodup, step, h1, List.map_append, List.nodup_append]
      refine ⟨h, by simp, ?_⟩
      intro a ha hb2
      simp only [List.map_cons, List.map_nil, List.mem_singleton] at hb2
      subst hb2
      rcases List.mem_map.mp ha with ⟨t, ht, hid⟩
      exact absurd hid (Nat.ne_of_lt (hb t ht))
  | del id =>
    rw [IdsNodup, step, deleteTodo_todos]
    exact ((List.filter_sublist m.todos).map _).nodup h
  | toggle id =>
    rw [IdsNodup, step]
    rcases toggleComplete_todos_cases m id with he | ⟨i, u, hu, he⟩
    · rw [he]; exact h
    · rw [he, map_id_set { u with completed := !u.completed } hu rfl]; exact h
  | update id newText =>
    rw [IdsNodup, step]
    rcases updateTodo_todos_cases m id newText with he | ⟨i, u, hu, he, _, _⟩
    · rw [he]; exact h
    · rw [he, map_id_set { u with text := jsTrim newText } hu rfl]; exact h

theorem step_textsValid {m : TodoModel} (op : Op) (h : TextsValid m) :
    TextsValid (m.step op) := by
  cases op with
  | add text now =>
    rcases addTodo_cases m text now with he | ⟨h1, _, h3, h4⟩
    · rw [step, he]; exact h
    · intro t ht
      rw [step, h1] at ht
      rcases List.mem_append.mp ht with hmem | hmem
      · exact h t hmem
      · rcases List.mem_singleton.mp hmem with rfl
        exact validText_of_guards h3 h4
  | del id =>
    intro t ht
    rw [step, deleteTodo_todos] at ht
    exact h t (List.mem_of_mem_filter ht)
  | toggle id =>
    intro t ht
    rw [step] at ht
    rcases toggleComplete_todos_cases m id with he | ⟨i, u, hu, he⟩
    · rw [he] at ht
      exact h t ht
    · rw [he] at ht
      rcases List.mem_or_eq_of_mem_set ht with hmem | rfl
      · exact h t hmem
      · exact h u (mem_of_getElem?_some hu)
  | update id newText =>
    intro t ht
    rw [step] at ht
    rcases updateTodo_todos_cases m id newText with he | ⟨i, u, hu, he, h3, h4⟩
    · rw [he] at ht
      exact h t ht
    · rw [he] at ht
      rcases List.mem_or_eq_of_mem_set ht with hmem | rfl
      · exact h t hmem
      · exact validText_of_guards h3 h4

/-! ### Run-level lemmas -/

theorem run_nextId_mono (m : TodoModel) (ops : List Op) :
    m.nextId ≤ (m.run ops).nextId := by
  induction ops generalizing m with
  | nil => exact le_refl _
  | cons op ops ih => exact le_trans (step_nextId_mono m op) (ih (m.step op))

theorem run_idBound {m : TodoModel} (ops : List Op) (h : IdBound m) :
    IdBound (m.run ops) := by
  induction ops generalizing m with
  | nil => exact h
  | cons op ops ih => exact ih (step_idBound op h)

theorem run_idsNodup {m : TodoModel} (ops : List Op) (hb : IdBound m)
    (h : IdsNodup m) : IdsNodup (m.run ops) := by
  induction ops generalizing m with
  | nil => exact h
  | cons op ops ih => exact ih (step_idBound op hb) (step_idsNodup op hb h)

theorem run_textsValid {m : TodoModel} (ops : List Op) (h : TextsValid m) :
    TextsValid (m.run ops) := by
  induction ops generalizing m with
  | nil => exact h
  | cons op ops ih => exact ih (step_textsValid op h)

/-- Every id assigned along a sequence is at least the starting counter. -/
theorem runAssigned_lower (m : TodoModel) (ops : List Op) :
    ∀ a ∈ m.runAssigned ops, m.nextId ≤ a := by
  induction ops generalizing m with
  | nil => intro a ha; cases ha
  | cons op ops ih =>
    intro a ha
    rw [runAssigned] at ha
    rcases List.mem_append.mp ha with hmem | hmem
    · by_cases hc : (m.step op).nextId = m.nextId
      · rw [if_pos hc] at hmem
        cases hmem
      · rw [if_neg hc] at hmem
        rcases List.mem_singleton.mp hmem with rfl
        exact le_refl _
    · exact le_trans (step_nextId_mono m op) (ih (m.step op) a hmem)

/-- The ids assigned along a sequence are strictly increasing: each newly
assigned id is strictly greater than every id assigned before it. -/
theorem runAssigned_pairwise (m : TodoModel) (ops : List Op) :
    (m.runAssigned ops).Pairwise (fun a b => a < b) := by
  induction ops generalizing m with
  | nil => exact List.Pairwise.nil
  | cons op ops ih =>
    rw [runAssigned]
    by_cases hc : (m.step op).nextId = m.nextId
    · rw [if_pos hc, List.nil_append]
      exact ih (m.step op)
    · rw [if_neg hc, List.singleton_append, List.pairwise_cons]
      refine ⟨?_, ih (m.step op)⟩
      intro a ha
      have h1 : (m.step op).nextId ≤ a := runAssigned_lower (m.step op) ops a ha
      have h2 : m.nextId ≤ (m.step op).nextId := step_nextId_mono m op
      omega

/-! ### Constructor facts -/

theorem construct_todos (st : Storage) :
    (construct st).todos = st.items.getD [] := rfl

theorem construct_idBound (st : Storage) : IdBound (construct st) := by
  intro t ht
  have h1 : t.id ≤ ((st.items.getD []).map (fun t => t.id)).foldl max 0 :=
    le_foldl_max (List.mem_map_of_mem _ ht) 0
  have h2 : ((st.items.getD []).map (fun t => t.id)).foldl max 0 + 1
      ≤ (construct st).nextId := le_max_left _ _
  omega

theorem construct_one_le_nextId (st : Storage) : 1 ≤ (construct st).nextId :=
  le_trans (Nat.succ_le_succ (Nat.zero_le _)) (le_max_left _ _)

/-! ### Found-branch characterizations -/

theorem toggleComplete_todos_of_found {m : TodoModel} {id : Nat} {i : Nat} {t : Todo}
    (hfind : m.todos.findIdx? (fun t => t.id == id) = some i)
    (hget : m.todos[i]? = some t) :
    (m.toggleComplete id).todos =
      m.todos.set i { t with completed := !t.completed } := by
  unfold toggleComplete
  split
  · next heq =>
    rw [hfind] at heq
    cases heq
  · next j heq =>
    rw [hfind] at heq
    injection heq with heq
    subst heq
    split
    · next hnone =>
      rw [hget] at hnone
      cases hnone
    · next u hu =>
      rw [hget] at hu
      injection hu with hu
      subst hu
      rfl

theorem updateTodo_todos_of_found {m : TodoModel} {id : Nat} {newText : JsStr}
    {i : Nat} {t : Todo}
    (hfind : m.todos.findIdx? (fun t => t.id == id) = some i)
    (hget : m.todos[i]? = some t)
    (h1 : jsTrim newText ≠ []) (h2 : (jsTrim newText).length ≤ 500) :
    (m.updateTodo id newText).todos =
      m.todos.set i { t with text := jsTrim newText } := by
  have htext : newText ≠ [] := by
    intro h0
    rw [h0, jsTrim_nil] at h1
    exact h1 rfl
  unfold updateTodo
  split
  · next heq =>
    rw [hfind] at heq
    cases heq
  · next j heq =>
    rw [hfind] at heq
    injection heq with heq
    subst heq
    rw [if_neg (by simp [htext, h1]), if_neg (by omega)]
    split
    · next hnone =>
      rw [hget] at hnone
      cases hnone
    · next u hu =>
      rw [hget] at hu
      injection hu with hu
      subst hu
      rfl

/-- `toggleComplete` is a complete no-op (state equality) when the id is not
in the collection. -/
theorem toggleComplete_of_notFound {m : TodoModel} {id : Nat}
    (hfind : m.todos.findIdx? (fun t => t.id == id) = none) :
    m.toggleComplete id = m := by
  unfold toggleComplete
  split
  · rfl
  · next j heq =>
    rw [hfind] at heq
    cases heq

/-- `updateTodo` is a complete no-op (state equality) when the id is not in
the collection. -/
theorem updateTodo_of_notFound {m : TodoModel} {id : Nat} (newText : JsStr)
    (hfind : m.todos.findIdx? (fun t => t.id == id) = none) :
    m.updateTodo id newText = m := by
  unfold updateTodo
  split
  · rfl
  · next j heq =>
    rw [hfind] at heq
    cases heq

/-- `updateTodo` is a complete no-op (state equality) when the trimmed text
is empty or longer than 500 characters. -/
theorem updateTodo_of_invalid (m : TodoModel) (id : Nat) (newText : JsStr)
    (h : jsTrim newText = [] ∨ 500 < (jsTrim newText).length) :
    m.updateTodo id newText = m := by
  unfold updateTodo
  split
  · rfl
  · next j heq =>
    rcases h with h | h
    · rw [if_pos (Or.inr h)]
    · by_cases hc : newText = [] ∨ jsTrim newText = []
      · rw [if_pos hc]
      · rw [if_neg hc, if_pos (by omega : (jsTrim newText).length > 500)]

end TodoModel

/-! ### More helpers for the claims -/

/-- `findIdx?` for an id-based predicate only depends on the id sequence. -/
theorem findIdx?_id_congr {l l' : List Todo}
    (h : l.map (fun t => t.id) = l'.map (fun t => t.id)) (id : Nat) :
    l.findIdx? (fun t => t.id == id) = l'.findIdx? (fun t => t.id == id) := by
  have h1 : List.findIdx? (fun n => n == id) (l.map (fun t => t.id)) =
      List.findIdx? (fun n => n == id) (l'.map (fun t => t.id)) := by rw [h]
  rw [List.findIdx?_map, List.findIdx?_map] at h1
  exact h1

/-- `foldl max` stays below any bound dominating the seed and the list. -/
theorem foldl_max_le {l : List Nat} {b : Nat} (h : ∀ x ∈ l, x ≤ b) {c : Nat}
    (hc : c ≤ b) : l.foldl max c ≤ b := by
  induction l generalizing c with
  | nil => exact hc
  | cons x xs ih =>
    exact ih (fun y hy => h y (List.mem_cons_of_mem x hy))
      (max_le hc (h x (List.mem_cons_self x xs)))

/-! ### Concrete instances used by the witnesses -/

/-- A store built on empty storage with one record added:
its single todo is `{ id := 1, text := ['x'], completed := false, createdAt := 0 }`
and its counter is `2`. -/
def sampleModel : TodoModel :=
  (TodoModel.construct { items := none, nextId := none }).addTodo (['x'] : JsStr) 0

/-! ### The claims -/

/-- C1: for every sequence of add and delete (here: arbitrary) operations on
a store constructed over persisted items with pairwise-distinct ids, no two
records ever share an id, each id assigned by `addTodo` is strictly greater
than every id assigned before it and than every id loaded at construction,
and the effective counter at construction is
`max(1 + max of existing ids, persisted counter)`. -/
theorem c1_identifier_uniqueness (st : Storage)
    (h : ((st.items.getD []).map (fun t => t.id)).Nodup) (ops : List Op) :
    IdsNodup ((TodoModel.construct st).run ops) ∧
    ((TodoModel.construct st).runAssigned ops).Pairwise (fun a b => a < b) ∧
    (∀ a ∈ (TodoModel.construct st).runAssigned ops,
      ∀ t ∈ (TodoModel.construct st).todos, t.id < a) ∧
    (TodoModel.construct st).nextId =
      max ((((st.items.getD []).map (fun t => t.id)).foldl max 0) + 1)
        (st.nextId.getD 1) := by
  have hb := TodoModel.construct_idBound st
  have hn : IdsNodup (TodoModel.construct st) := h
  refine ⟨TodoModel.run_idsNodup ops hb hn,
    TodoModel.runAssigned_pairwise _ _, ?_, rfl⟩
  intro a ha t ht
  have h1 := TodoModel.runAssigned_lower _ ops a ha
  have h2 := hb t ht
  omega

def c1Storage : Storage :=
  { items := some [{ id := 2, text := ['a'], completed := false, createdAt := 0 }],
    nextId := some 1 }

def c1Ops : List Op := [Op.add ['b'] 5, Op.del 2, Op.add ['c'] 6]

/-- Witness for C1 at a concrete storage and operation sequence. -/
theorem c1_witness :
    ((c1Storage.items.getD []).map (fun t => t.id)).Nodup ∧
    (IdsNodup ((TodoModel.construct c1Storage).run c1Ops) ∧
      ((TodoModel.construct c1Storage).runAssigned c1Ops).Pairwise
        (fun a b => a < b) ∧
      (∀ a ∈ (TodoModel.construct c1Storage).runAssigned c1Ops,
        ∀ t ∈ (TodoModel.construct c1Storage).todos, t.id < a) ∧
      (TodoModel.construct c1Storage).nextId =
        max ((((c1Storage.items.getD []).map (fun t => t.id)).foldl max 0) + 1)
          (c1Storage.nextId.getD 1)) :=
  ⟨by decide, c1_identifier_uniqueness c1Storage (by decide) c1Ops⟩

/-- C2: for every input whose trimmed form is non-empty and at most 500
characters, `addTodo` grows the sequence by exactly one, appending a record
with the trimmed text, `completed = false` and the fresh id, and leaves all
previously present records unchanged in content and order. -/
theorem c2_addTodo_appends (m : TodoModel) (text : JsStr) (now : Nat)
    (h1 : jsTrim text ≠ []) (h2 : (jsTrim text).length ≤ 500) :
    (m.addTodo text now).todos.length = m.todos.length + 1 ∧
    (m.addTodo text now).todos =
      m.todos ++ [{ id := m.nextId, text := jsTrim text, completed := false,
                    createdAt := now }] := by
  obtain ⟨he, _⟩ := TodoModel.addTodo_of_valid m text now h1 h2
  constructor
  · rw [he]
    simp
  · exact he

/-- Witness for C2 on `sampleModel` with the input `" hi"`. -/
theorem c2_witness :
    jsTrim [' ', 'h', 'i'] ≠ [] ∧ (jsTrim [' ', 'h', 'i']).length ≤ 500 ∧
    ((sampleModel.addTodo [' ', 'h', 'i'] 4).todos.length
        = sampleModel.todos.length + 1 ∧
      (sampleModel.addTodo [' ', 'h', 'i'] 4).todos =
        sampleModel.todos ++
          [{ id := sampleModel.nextId, text := jsTrim [' ', 'h', 'i'],
             completed := false, createdAt := 4 }]) :=
  ⟨by decide, by decide,
    c2_addTodo_appends sampleModel [' ', 'h', 'i'] 4 (by decide) (by decide)⟩

/-- C3: constructing a store against the storage last written by another
store's `save` reproduces that store's task sequence (same ids, texts,
completed flags and order: list equality) and the same counter.  The writing
store is any store reachable from a construction by an operation
sequence. -/
theorem c3_roundtrip (st : Storage) (ops : List Op) :
    (TodoModel.construct ((TodoModel.construct st).run ops).save.storage).todos
      = ((TodoModel.construct st).run ops).todos ∧
    (TodoModel.construct ((TodoModel.construct st).run ops).save.storage).nextId
      = ((TodoModel.construct st).run ops).nextId := by
  have hb : IdBound ((TodoModel.construct st).run ops) :=
    TodoModel.run_idBound ops (TodoModel.construct_idBound st)
  have hp : 1 ≤ ((TodoModel.construct st).run ops).nextId :=
    le_trans (TodoModel.construct_one_le_nextId st)
      (TodoModel.run_nextId_mono _ ops)
  set m := (TodoModel.construct st).run ops with hm
  refine ⟨rfl, ?_⟩
  show max (((m.todos.map (fun t => t.id)).foldl max 0) + 1) m.nextId = m.nextId
  apply max_eq_right
  have hfold : (m.todos.map (fun t => t.id)).foldl max 0 ≤ m.nextId - 1 := by
    apply foldl_max_le
    · intro x hx
      rcases List.mem_map.mp hx with ⟨t, ht, rfl⟩
      have := hb t ht
      omega
    · omega
  omega

/-- C4 as stated is false: construction performs no validation, so a
persistence gateway holding a record with empty text produces, immediately
after construction, a collection containing a record whose text is empty. -/
theorem c4_counterexample :
    ¬ (∀ t ∈ (TodoModel.construct
        { items := some [{ id := 1, text := [], completed := false,
                           createdAt := 0 }],
          nextId := some 2 }).todos, ValidText t.text) := by
  decide

/-- C4 amended: provided every record loaded from the gateway already
satisfies the text bounds (in particular when the gateway was last written
by a conforming store, or is empty), every record present at any time —
including immediately after construction — has text that is neither empty
nor whitespace-only and is at most 500 characters. -/
theorem c4_texts_valid (st : Storage)
    (h : ∀ t ∈ st.items.getD [], ValidText t.text) (ops : List Op) :
    TextsValid ((TodoModel.construct st).run ops) :=
  TodoModel.run_textsValid ops h

def c4Storage : Storage :=
  { items := some [{ id := 1, text := ['a'], completed := false, createdAt := 0 }],
    nextId := some 2 }

def c4Ops : List Op := [Op.add ['b'] 1, Op.update 1 ['c'], Op.toggle 1, Op.del 2]

/-- Witness for the amended C4 at a concrete storage and operation
sequence. -/
theorem c4_witness :
    (∀ t ∈ c4Storage.items.getD [], ValidText t.text) ∧
    TextsValid ((TodoModel.construct c4Storage).run c4Ops) :=
  ⟨by decide, c4_texts_valid c4Storage (by decide) c4Ops⟩

/-- C5: for every id matching a record in the collection, toggling twice
restores the original array of records (in particular the record's original
`completed` value). -/
theorem c5_toggle_involutive (m : TodoModel) (id : Nat)
    (h : ∃ t ∈ m.todos, t.id = id) :
    ((m.toggleComplete id).toggleComplete id).todos = m.todos := by
  have hex : ∃ x ∈ m.todos, (fun t => t.id == id) x = true := by
    obtain ⟨t0, ht0, hid⟩ := h
    exact ⟨t0, ht0, by simp [hid]⟩
  have hfind : m.todos.findIdx? (fun t => t.id == id) =
      some (m.todos.findIdx (fun t => t.id == id)) :=
    List.findIdx?_eq_some_of_exists hex
  have hlt : m.todos.findIdx (fun t => t.id == id) < m.todos.length :=
    List.findIdx_lt_length_of_exists hex
  obtain ⟨t, hget⟩ :
      ∃ t, m.todos[m.todos.findIdx (fun t => t.id == id)]? = some t :=
    ⟨_, List.getElem?_eq_getElem hlt⟩
  have h1 := TodoModel.toggleComplete_todos_of_found hfind hget
  have hmap : (m.toggleComplete id).todos.map (fun t => t.id)
      = m.todos.map (fun t => t.id) := by
    rw [h1]
    exact map_id_set _ hget rfl
  have hfind1 : (m.toggleComplete id).todos.findIdx? (fun t => t.id == id) =
      some (m.todos.findIdx (fun t => t.id == id)) :=
    (findIdx?_id_congr hmap id).trans hfind
  have hget1 : (m.toggleComplete id).todos[m.todos.findIdx
      (fun t => t.id == id)]? = some { t with completed := !t.completed } := by
    rw [h1, List.getElem?_set]
    simp [hlt]
  have h2 := TodoModel.toggleComplete_todos_of_found hfind1 hget1
  rw [h2, h1, List.set_set]
  simp only [Bool.not_not]
  exact set_getElem?_self hget

/-- Witness for C5 on `sampleModel` at id 1. -/
theorem c5_witness :
    (∃ t ∈ sampleModel.todos, t.id = 1) ∧
    ((sampleModel.toggleComplete 1).toggleComplete 1).todos
      = sampleModel.todos :=
  ⟨by decide, c5_toggle_involutive sampleModel 1 (by decide)⟩

/-- C6: when no record matches the id, `toggleComplete`, `deleteTodo` and
`updateTodo` leave the task sequence (hence its length and contents)
unchanged. -/
theorem c6_unknown_id_frame (m : TodoModel) (id : Nat) (newText : JsStr)
    (h : ∀ t ∈ m.todos, t.id ≠ id) :
    (m.toggleComplete id).todos = m.todos ∧
    (m.deleteTodo id).todos = m.todos ∧
    (m.updateTodo id newText).todos = m.todos := by
  have hfind : m.todos.findIdx? (fun t => t.id == id) = none :=
    List.findIdx?_eq_none_iff.mpr (fun t ht => by simp [h t ht])
  refine ⟨?_, ?_, ?_⟩
  · rw [TodoModel.toggleComplete_of_notFound hfind]
  · rw [TodoModel.deleteTodo_todos]
    apply List.filter_eq_self.mpr
    intro a ha
    simp [h a ha]
  · rw [TodoModel.updateTodo_of_notFound newText hfind]

/-- Witness for C6 on `sampleModel` at the unknown id 9. -/
theorem c6_witness :
    (∀ t ∈ sampleModel.todos, t.id ≠ 9) ∧
    ((sampleModel.toggleComplete 9).todos = sampleModel.todos ∧
      (sampleModel.deleteTodo 9).todos = sampleModel.todos ∧
      (sampleModel.updateTodo 9 ['y']).todos = sampleModel.todos) :=
  ⟨by decide, c6_unknown_id_frame sampleModel 9 ['y'] (by decide)⟩

/-- The 501-character input refuting C7 as stated: one leading space
followed by 500 letters, whose trimmed form has exactly 500 characters. -/
def c7Text : JsStr := ' ' :: List.replicate 500 'a'

set_option maxRecDepth 8000 in
/-- C7 as stated is false: `addTodo` validates the length of the trimmed
text, not of the input, so this input string of 501 characters is added to
an empty store (the sequence grows from 0 to 1 records). -/
theorem c7_counterexample :
    c7Text.length = 501 ∧
    (TodoModel.construct { items := none, nextId := none }).todos.length = 0 ∧
    ((TodoModel.construct { items := none, nextId := none }).addTodo
        c7Text 0).todos.length = 1 := by
  refine ⟨by decide, rfl, by decide⟩

/-- C7 amended: for every input string that is empty, whitespace-only, or
whose trimmed form is longer than 500 characters, `addTodo` leaves the task
sequence unchanged. -/
theorem c7_invalid_add_noop (m : TodoModel) (text : JsStr) (now : Nat)
    (h : text = [] ∨ jsTrim text = [] ∨ 500 < (jsTrim text).length) :
    (m.addTodo text now).todos = m.todos := by
  have h2 : jsTrim text = [] ∨ 500 < (jsTrim text).length := by
    rcases h with rfl | h | h
    · exact Or.inl jsTrim_nil
    · exact Or.inl h
    · exact Or.inr h
  rw [TodoModel.addTodo_of_invalid m text now h2]

/-- Witness for the amended C7 on `sampleModel` with a whitespace-only
input. -/
theorem c7_witness :
    ((' ' :: [] : JsStr) = [] ∨ jsTrim (' ' :: []) = [] ∨
      500 < (jsTrim (' ' :: [])).length) ∧
    (sampleModel.addTodo (' ' :: []) 3).todos = sampleModel.todos :=
  ⟨by decide, c7_invalid_add_noop sampleModel (' ' :: []) 3 (by decide)⟩

/-- C8: for every id present in the collection and every `newText` whose
trimmed form is non-empty and at most 500 characters, `updateTodo` replaces
the text of the (first) matching record with the trimmed value, leaving its
`id`, `completed` and `createdAt` — and every other record — unchanged
(expressed by the `List.set` equation with a copy differing only in
`text`). -/
theorem c8_updateTodo_replaces (m : TodoModel) (id : Nat) (newText : JsStr)
    (h : ∃ t ∈ m.todos, t.id = id)
    (h1 : jsTrim newText ≠ []) (h2 : (jsTrim newText).length ≤ 500) :
    ∃ i t, m.todos[i]? = some t ∧ t.id = id ∧
      (m.updateTodo id newText).todos =
        m.todos.set i { t with text := jsTrim newText } := by
  have hex : ∃ x ∈ m.todos, (fun t => t.id == id) x = true := by
    obtain ⟨t0, ht0, hid⟩ := h
    exact ⟨t0, ht0, by simp [hid]⟩
  have hfind : m.todos.findIdx? (fun t => t.id == id) =
      some (m.todos.findIdx (fun t => t.id == id)) :=
    List.findIdx?_eq_some_of_exists hex
  have hlt : m.todos.findIdx (fun t => t.id == id) < m.todos.length :=
    List.findIdx_lt_length_of_exists hex
  obtain ⟨t, hget⟩ :
      ∃ t, m.todos[m.todos.findIdx (fun t => t.id == id)]? = some t :=
    ⟨_, List.getElem?_eq_getElem hlt⟩
  refine ⟨m.todos.findIdx (fun t => t.id == id), t, hget, ?_,
    TodoModel.updateTodo_todos_of_found hfind hget h1 h2⟩
  have hp : (fun t => t.id == id) t = true :=
    @List.findIdx_of_getElem?_eq_some _ (fun t => t.id == id) t _ hget
  simpa using hp

/-- Witness for C8 on `sampleModel` at id 1 with replacement text `"y"`. -/
theorem c8_witness :
    (∃ t ∈ sampleModel.todos, t.id = 1) ∧ jsTrim ['y'] ≠ [] ∧
    (jsTrim ['y']).length ≤ 500 ∧
    (∃ i t, sampleModel.todos[i]? = some t ∧ t.id = 1 ∧
      (sampleModel.updateTodo 1 ['y']).todos =
        sampleModel.todos.set i { t with text := jsTrim ['y'] }) :=
  ⟨by decide, by decide, by decide,
    c8_updateTodo_replaces sampleModel 1 ['y'] (by decide) (by decide)
      (by decide)⟩

/-- C9 as stated is false: `subscribe` does append the callback, but its
JavaScript return value is `undefined` (modelled `none`) — no identifier or
handle for later unregistration is returned (nor does the model expose any
unregistration operation). -/
theorem c9_counterexample :
    (sampleModel.subscribe 7).1.listeners = sampleModel.listeners ++ [7] ∧
    ¬ ∃ h, (sampleModel.subscribe 7).2 = some h := by
  refine ⟨rfl, ?_⟩
  rintro ⟨h, hh⟩
  exact Option.noConfusion hh

/-- C9 amended: `subscribe(callback)` appends the callback to the registered
listeners and returns `undefined`: it provides no identifier or handle for
later unregistration. -/
theorem c9_subscribe_appends (m : TodoModel) (listener : Nat) :
    (m.subscribe listener).1.listeners = m.listeners ++ [listener] ∧
    (m.subscribe listener).2 = none :=
  ⟨rfl, rfl⟩

/-- C10: when `addTodo` rejects its input (trimmed text empty or longer than
500 characters) or `updateTodo` rejects its input (no matching id, or
trimmed text empty or longer than 500 characters), the operation leaves the
entire store state unchanged — in particular the task sequence, the `nextId`
counter and the storage contents are untouched and no notification pass
occurs (the notify log does not grow), so no subscribed listener is
invoked. -/
theorem c10_rejection_atomic (m : TodoModel) (text : JsStr) (now : Nat)
    (id : Nat) (newText : JsStr) :
    (jsTrim text = [] ∨ 500 < (jsTrim text).length →
      m.addTodo text now = m) ∧
    ((∀ t ∈ m.todos, t.id ≠ id) ∨ jsTrim newText = [] ∨
        500 < (jsTrim newText).length →
      m.updateTodo id newText = m) := by
  constructor
  · exact TodoModel.addTodo_of_invalid m text now
  · intro h
    rcases h with h | h
    · apply TodoModel.updateTodo_of_notFound
      exact List.findIdx?_eq_none_iff.mpr (fun t ht => by simp [h t ht])
    · exact TodoModel.updateTodo_of_invalid m id newText h

/-- Witness for C10 on `sampleModel`: a whitespace-only add and an update to
an unknown id both leave the state unchanged. -/
theorem c10_witness :
    (jsTrim (' ' :: []) = [] ∨ 500 < (jsTrim (' ' :: [])).length) ∧
    ((∀ t ∈ sampleModel.todos, t.id ≠ 99) ∨ jsTrim ['y'] = [] ∨
      500 < (jsTrim ['y']).length) ∧
    sampleModel.addTodo (' ' :: []) 3 = sampleModel ∧
    sampleModel.updateTodo 99 ['y'] = sampleModel :=
  ⟨by decide, by decide,
    (c10_rejection_atomic sampleModel (' ' :: []) 3 99 ['y']).1 (by decide),
    (c10_rejection_atomic sampleModel (' ' :: []) 3 99 ['y']).2 (by decide)⟩

end TodoApp
